import Mathlib

/-!
Verification of the Lazor puzzle solver (Main_Code_Block.py).

The Python program is embedded shallowly:
* `Point`, `Laser`, `Block` mirror the data classes; the three block
  subclasses (ReflectBlock, OpaqueBlock, RefractBlock) become the tag
  `BlockKind` with one `interact` function dispatching on it.
* Exceptions (`ValueError`) become `Except LzError`; the dictionary
  `Board.grid` becomes an association list queried by first match, which
  agrees with the dictionary because `add_block` refuses duplicate keys.
* The two `while` loops of `simulate_lasers` become the fuel-indexed
  functions `walk` (the inner stepping loop) and `simLoop` (the work-list
  loop); running out of fuel yields the distinguished value
  `.error .fuelOut`.  The fuel bounds `walkFuel` and `outerFuel` are
  proved sufficient below for boards whose lasers have a nonzero
  direction, so `.fuelOut` appears exactly on the runs where the Python
  loops do not terminate.
* Python's `active_lasers.pop()` takes the last element and
  `extend` appends at the end; the work list is therefore represented
  reversed, so that `pop` is head access and `extend nl` is
  `nl.reverse ++ rest`.
* The recursive closure `try_place` of `solver` mutates the board and the
  solution list in place; here the board and the list are threaded
  explicitly and returned, so that the caller can observe the final board
  exactly as a Python caller observes the mutated object.
-/

/-- 2D integer point (Python class `Point`). -/
structure Point where
  x : Int
  y : Int
deriving DecidableEq

/-- Component-wise addition (`Point.__add__`). -/
instance : Add Point :=
  ⟨fun a b => ⟨a.x + b.x, a.y + b.y⟩⟩

/-- A laser beam: origin plus direction (Python class `Laser`). -/
structure Laser where
  origin : Point
  direction : Point
deriving DecidableEq

/-- The three block subclasses: ReflectBlock, OpaqueBlock (absorber) and
RefractBlock. -/
inductive BlockKind where
  | reflect
  | absorb
  | refract
deriving DecidableEq

/-- A block: its kind, its position and the `fixed` flag
(Python class `Block` and its subclasses). -/
structure Block where
  kind : BlockKind
  pos : Point
  fixed : Bool
deriving DecidableEq

/-- The failure modes of the embedded program: the `ValueError` raised by
`interact` on a geometrically impossible entry point, the `ValueError`
raised by `add_block` on an occupied position, and the marker produced
when a fuel bound is exhausted (i.e. when the corresponding Python
`while` loop has not finished within the given number of iterations). -/
inductive LzError where
  | invalidGeometry
  | occupied
  | fuelOut
deriving DecidableEq

/-- `Block.interact`, dispatched on the block kind.

ReflectBlock: if the incoming laser's origin shares the x coordinate of
the block (and differs in y) the y component of the direction is flipped;
if it shares the y coordinate (and differs in x) the x component is
flipped; otherwise a `ValueError` is raised.  One laser at the block
position is returned.

OpaqueBlock: returns the empty list.

RefractBlock: returns the transmitted laser (direction unchanged)
followed by the reflected laser computed by the same entry-side rule as
ReflectBlock, or raises the same `ValueError`. -/
def interact (blk : Block) (laser : Laser) : Except LzError (List Laser) :=
  match blk.kind with
  | .reflect =>
    if laser.origin.x = blk.pos.x ∧ laser.origin.y ≠ blk.pos.y then
      .ok [⟨blk.pos, ⟨laser.direction.x, -laser.direction.y⟩⟩]
    else if laser.origin.y = blk.pos.y ∧ laser.origin.x ≠ blk.pos.x then
      .ok [⟨blk.pos, ⟨-laser.direction.x, laser.direction.y⟩⟩]
    else
      .error .invalidGeometry
  | .absorb => .ok []
  | .refract =>
    if laser.origin.x = blk.pos.x ∧ laser.origin.y ≠ blk.pos.y then
      .ok [⟨blk.pos, laser.direction⟩,
           ⟨blk.pos, ⟨laser.direction.x, -laser.direction.y⟩⟩]
    else if laser.origin.y = blk.pos.y ∧ laser.origin.x ≠ blk.pos.x then
      .ok [⟨blk.pos, laser.direction⟩,
           ⟨blk.pos, ⟨-laser.direction.x, laser.direction.y⟩⟩]
    else
      .error .invalidGeometry

/-- The game board (Python class `Board`).  `grid` is the dictionary
mapping positions to blocks, `availA`/`availB`/`availC` are the entries
of the `available_blocks` dictionary. -/
structure Board where
  width : Int
  height : Int
  grid : List (Point × Block)
  lasers : List Laser
  targets : List Point
  availA : Nat
  availB : Nat
  availC : Nat
  empty_positions : List Point
deriving DecidableEq

/-- First-match lookup in the grid association list (dictionary access). -/
def gridLookup : List (Point × Block) → Point → Option Block
  | [], _ => none
  | e :: rest, p => if e.1 = p then some e.2 else gridLookup rest p

/-- Removal of a key from the grid (`del board.grid[pos]`).  The
dictionary has unique keys, so removing the first match is removal of
the key. -/
def gridErase : List (Point × Block) → Point → List (Point × Block)
  | [], _ => []
  | e :: rest, p => if e.1 = p then rest else e :: gridErase rest p

/-- `Board.add_block`: raises `ValueError` if the position is already
occupied, otherwise stores the block under its position. -/
def add_block (bd : Board) (blk : Block) : Except LzError Board :=
  if (gridLookup bd.grid blk.pos).isSome then .error .occupied
  else .ok { bd with grid := (blk.pos, blk) :: bd.grid }

/-- `Board.add_laser`: normalizes each direction component with
`1 if d > 0 else -1 if d < 0 else 0` and appends the laser. -/
def add_laser (bd : Board) (x y dx dy : Int) : Board :=
  { bd with lasers := bd.lasers ++
      [⟨⟨x, y⟩, ⟨if dx > 0 then 1 else if dx < 0 then -1 else 0,
                 if dy > 0 then 1 else if dy < 0 then -1 else 0⟩⟩] }

/-- `Board.is_valid_position`: `0 <= x < width and 0 <= y < height`. -/
def isValid (bd : Board) (p : Point) : Bool :=
  decide (0 ≤ p.x) && decide (p.x < bd.width) &&
    decide (0 ≤ p.y) && decide (p.y < bd.height)

/-- Insertion into the `visited` set (`set.add`); the set of points is
represented as a duplicate-free list. -/
def insertPt (p : Point) (v : List Point) : List Point :=
  if p ∈ v then v else p :: v

/-- The inner `while True` loop of `simulate_lasers`: step the current
position by the direction; leave the board (terminating the beam with no
new lasers), or record the new position and either interact with a block
there (terminating the walk and returning the produced lasers) or keep
walking.  The first argument of the `Nat` index is the remaining fuel;
fuel 0 stands for an unfinished loop. -/
def walk (bd : Board) : Nat → Point → Point → List Point →
    Except LzError (List Point × List Laser)
  | 0, _, _, _ => .error .fuelOut
  | n + 1, cur, dir, vis =>
    if isValid bd (cur + dir) then
      match gridLookup bd.grid (cur + dir) with
      | some blk =>
        match interact blk ⟨cur, dir⟩ with
        | .error e => .error e
        | .ok nl => .ok (insertPt (cur + dir) vis, nl)
      | none => walk bd n (cur + dir) dir (insertPt (cur + dir) vis)
    else
      .ok (vis, [])

/-- Fuel sufficient for one walk, proved adequate below whenever the
direction is nonzero: a nonzero component moves the matching coordinate
monotonically until it leaves `[0, bound)`. -/
def walkFuel (bd : Board) (p : Point) : Nat :=
  (bd.width - p.x).toNat + (p.x + 1).toNat +
    (bd.height - p.y).toNat + (p.y + 1).toNat + 1

/-- All sign-flip variants of the directions of the given lasers.  Every
direction that can ever appear in the work list lies in this list. -/
def dirQuads : List Laser → List Point
  | [] => []
  | l :: rest =>
    l.direction :: ⟨l.direction.x, -l.direction.y⟩ ::
      ⟨-l.direction.x, l.direction.y⟩ ::
      ⟨-l.direction.x, -l.direction.y⟩ :: dirQuads rest

/-- All pairs (block position, direction) for the blocks of a grid. -/
def gridSigs : List (Point × Block) → List Point → List (Point × Point)
  | [], _ => []
  | e :: rest, ds => ds.map (fun d => (e.2.pos, d)) ++ gridSigs rest ds

/-- Every (origin, direction) signature that can ever be recorded in
`visited_laser_origins`: the signatures of the source lasers together
with every block position paired with every reachable direction. -/
def allSigs (bd : Board) : List (Point × Point) :=
  bd.lasers.map (fun l => (l.origin, l.direction)) ++
    gridSigs bd.grid (dirQuads bd.lasers)

/-- Fuel sufficient for the outer work-list loop, proved adequate below:
each iteration either discards a duplicate signature or retires a fresh
signature from `allSigs` while pushing at most two lasers. -/
def outerFuel (bd : Board) : Nat :=
  3 * (allSigs bd).length + bd.lasers.length + 1

/-- The outer `while active_lasers` loop of `simulate_lasers`.  The work
list is kept reversed (head = next pop).  A popped laser whose
(origin, direction) signature was already expanded is skipped; otherwise
its signature is recorded and its walk is run, appending the produced
lasers to the work list. -/
def simLoop (bd : Board) : Nat → List Laser → List (Point × Point) →
    List Point → Except LzError (List Point)
  | _, [], _, vis => .ok vis
  | 0, _ :: _, _, _ => .error .fuelOut
  | n + 1, l :: rest, seen, vis =>
    if (l.origin, l.direction) ∈ seen then
      simLoop bd n rest seen vis
    else
      match walk bd (walkFuel bd l.origin) l.origin l.direction vis with
      | .error e => .error e
      | .ok (vis2, nl) =>
        simLoop bd n (nl.reverse ++ rest) ((l.origin, l.direction) :: seen) vis2

/-- `Board.simulate_lasers`: runs the work-list loop on (a copy of) the
source lasers with empty visited sets. -/
def simulate_lasers (bd : Board) : Except LzError (List Point) :=
  simLoop bd (outerFuel bd) bd.lasers.reverse [] []

/-- `Board.is_solved`: all targets lie in the illuminated set. -/
def is_solved (bd : Board) : Except LzError Bool :=
  match simulate_lasers bd with
  | .error e => .error e
  | .ok vis => .ok (bd.targets.all (fun t => decide (t ∈ vis)))

/-- The list `blocks_placable` built by `solver` from the
`available_blocks` counts, in the dictionary order A, B, C. -/
def blocks_placable (bd : Board) : List BlockKind :=
  List.replicate bd.availA BlockKind.reflect ++
    List.replicate bd.availB BlockKind.absorb ++
    List.replicate bd.availC BlockKind.refract

/-- Construction of the block placed by `try_place` for one type letter
(the `fixed` flag defaults to `False`). -/
def mkBlock (t : BlockKind) (p : Point) : Block :=
  ⟨t, p, false⟩

/-- The `for pos in board.empty_positions` loop inside `try_place`:
skip occupied positions; otherwise place the block, recurse (the
`recurse` argument is `try_place` at the next index), and on failure
remove the block and the last solution entry and continue.  The board
and the solution list are threaded explicitly. -/
def tryPlaceLoop
    (recurse : Board → List Block → Except LzError (Bool × Board × List Block))
    (t : BlockKind) :
    List Point → Board → List Block → Except LzError (Bool × Board × List Block)
  | [], bd, sol => .ok (false, bd, sol)
  | pos :: ps, bd, sol =>
    if (gridLookup bd.grid pos).isSome then
      tryPlaceLoop recurse t ps bd sol
    else
      match add_block bd (mkBlock t pos) with
      | .error e => .error e
      | .ok bd1 =>
        match recurse bd1 (sol ++ [mkBlock t pos]) with
        | .error e => .error e
        | .ok (true, bd2, sol2) => .ok (true, bd2, sol2)
        | .ok (false, bd2, sol2) =>
          tryPlaceLoop recurse t ps { bd2 with grid := gridErase bd2.grid pos }
            sol2.dropLast

/-- The recursive closure `try_place` of `solver`: with no block left to
place, test `is_solved`; otherwise run the placement loop over the
board's empty positions for the next block type. -/
def tryPlace : List BlockKind → Board → List Block →
    Except LzError (Bool × Board × List Block)
  | [], bd, sol =>
    match is_solved bd with
    | .error e => .error e
    | .ok s => .ok (s, bd, sol)
  | t :: rest, bd, sol => tryPlaceLoop (tryPlace rest) t bd.empty_positions bd sol

/-- `solver`: build the placeable-block list, run `try_place` from index
0 with the empty solution, and return the solution list on success or
`None` on failure, together with the final state of the (in Python:
mutated in place) board. -/
def solver (bd : Board) : Except LzError (Option (List Block) × Board) :=
  match tryPlace (blocks_placable bd) bd [] with
  | .error e => .error e
  | .ok (true, bd2, sol) => .ok (some sol, bd2)
  | .ok (false, bd2, _) => .ok (none, bd2)

/-- The number of signatures of `L` not yet recorded in `seen`; the
decreasing part of the termination measure of the work-list loop. -/
def remCount (L : List (Point × Point)) (seen : List (Point × Point)) : Nat :=
  (L.filter (fun s => decide (¬ s ∈ seen))).length

/-- The beam-stepping loop diverges from `cur` in direction `dir`: it
exhausts every fuel supply, i.e. the corresponding Python `while True`
loop never reaches a `break`. -/
def walkDiverges (bd : Board) (cur dir : Point) : Prop :=
  ∀ (n : Nat) (v : List Point), walk bd n cur dir v = .error .fuelOut

/-- A board whose only laser has direction (0, 0), as produced by
`add_laser` with `dx = dy = 0`; finite bounds, no blocks, one source. -/
def bdZeroDir : Board := ⟨4, 4, [], [⟨⟨1, 1⟩, ⟨0, 0⟩⟩], [], 0, 0, 0, []⟩

/-- A board on which two refract blocks face each other across the laser
path, so that interactions re-create previously seen beams (a cycle). -/
def bdCyc : Board :=
  ⟨5, 1, [(⟨1, 0⟩, ⟨.refract, ⟨1, 0⟩, true⟩), (⟨3, 0⟩, ⟨.refract, ⟨3, 0⟩, true⟩)],
   [⟨⟨0, 0⟩, ⟨1, 0⟩⟩], [], 0, 0, 0, []⟩

/-- A board with one placeable absorb block, one empty position, no
lasers and no targets: the search places the block and succeeds. -/
def bdPlaceOne : Board := ⟨2, 2, [], [], [], 0, 1, 0, [⟨0, 0⟩]⟩

/-- A board with one available block but no empty position: the search
exhausts its (empty) placement loop and fails. -/
def bdNoPos : Board := ⟨2, 2, [], [], [⟨0, 0⟩], 1, 0, 0, []⟩

/-- A board with one available block, one empty position, no lasers and
an unreachable target: every placement fails, a definitive negative. -/
def bdMiss : Board := ⟨2, 2, [], [], [⟨1, 1⟩], 0, 1, 0, [⟨0, 0⟩]⟩

/-- A board with no available blocks at all, no lasers and no targets:
its (empty) target set is already covered, so it is already solved. -/
def bdSolvedEmpty : Board := ⟨2, 2, [], [], [], 0, 0, 0, [⟨0, 0⟩]⟩

/-- A one-row board with an absorb block next to the origin, used to
exercise one interacting step of the beam walk. -/
def bdAbsorbStep : Board :=
  ⟨3, 1, [(⟨1, 0⟩, ⟨.absorb, ⟨1, 0⟩, true⟩)], [], [], 0, 0, 0, []⟩

/-! ## Basic lemmas -/

theorem Point.add_x (a b : Point) : (a + b).x = a.x + b.x := rfl

theorem Point.add_y (a b : Point) : (a + b).y = a.y + b.y := rfl

theorem mem_insertPt_self (p : Point) (v : List Point) : p ∈ insertPt p v := by
  unfold insertPt
  split
  · assumption
  · exact List.mem_cons_self p v

theorem mem_insertPt_of_mem {q : Point} {v : List Point} (p : Point)
    (h : q ∈ v) : q ∈ insertPt p v := by
  unfold insertPt
  split
  · exact h
  · exact List.mem_cons_of_mem p h

theorem isValid_iff (bd : Board) (p : Point) :
    isValid bd p = true ↔
      0 ≤ p.x ∧ p.x < bd.width ∧ 0 ≤ p.y ∧ p.y < bd.height := by
  simp [isValid, and_assoc]

theorem gridLookup_mem {g : List (Point × Block)} {p : Point} {blk : Block}
    (h : gridLookup g p = some blk) : (p, blk) ∈ g := by
  induction g with
  | nil => simp [gridLookup] at h
  | cons e rest ih =>
    obtain ⟨q, b⟩ := e
    by_cases hq : q = p
    · subst hq
      simp [gridLookup] at h
      subst h
      exact List.mem_cons_self _ _
    · rw [gridLookup, if_neg hq] at h
      exact List.mem_cons_of_mem _ (ih h)

theorem interact_err {blk : Block} {l : Laser} {e : LzError}
    (h : interact blk l = .error e) : e = .invalidGeometry := by
  obtain ⟨k, p, fx⟩ := blk
  cases k <;> simp only [interact] at h <;>
    first
    | (split_ifs at h <;> simp_all)
    | simp_all

theorem interact_shape {blk : Block} {l : Laser} {nl : List Laser}
    (h : interact blk l = .ok nl) :
    ∀ l' ∈ nl, l'.origin = blk.pos ∧
      (l'.direction = l.direction ∨
        l'.direction = ⟨l.direction.x, -l.direction.y⟩ ∨
        l'.direction = ⟨-l.direction.x, l.direction.y⟩) := by
  obtain ⟨k, p, fx⟩ := blk
  intro l' hl'
  cases k
  · simp only [interact] at h
    split_ifs at h <;> cases h <;> simp at hl' <;> subst hl' <;> simp
  · simp only [interact] at h
    cases h
    simp at hl'
  · simp only [interact] at h
    split_ifs at h <;> cases h <;> simp at hl' <;>
      rcases hl' with rfl | rfl <;> simp

theorem interact_len {blk : Block} {l : Laser} {nl : List Laser}
    (h : interact blk l = .ok nl) : nl.length ≤ 2 := by
  obtain ⟨k, p, fx⟩ := blk
  cases k <;> simp only [interact] at h <;>
    first
    | (split_ifs at h <;> cases h <;> simp)
    | (cases h; simp)

/-! ## Lemmas about the beam walk -/

theorem walk_mono_mem {bd : Board} {q : Point} :
    ∀ {n : Nat} {cur dir : Point} {vis v2 : List Point} {nl : List Laser},
      q ∈ vis → walk bd n cur dir vis = .ok (v2, nl) → q ∈ v2 := by
  intro n
  induction n with
  | zero => intro cur dir vis v2 nl _ h; simp [walk] at h
  | succ m ih =>
    intro cur dir vis v2 nl hq h
    rw [walk] at h
    split at h
    · split at h
      · split at h
        · simp at h
        · cases h
          exact mem_insertPt_of_mem _ hq
      · exact ih (mem_insertPt_of_mem _ hq) h
    · cases h
      exact hq

theorem walk_err_kind {bd : Board} :
    ∀ {n : Nat} {cur dir : Point} {vis : List Point} {e : LzError},
      walk bd n cur dir vis = .error e →
      e = .fuelOut ∨ e = .invalidGeometry := by
  intro n
  induction n with
  | zero =>
    intro cur dir vis e h
    rw [walk] at h
    cases h
    exact Or.inl rfl
  | succ m ih =>
    intro cur dir vis e h
    rw [walk] at h
    split at h
    · split at h
      · split at h
        · next e' hi =>
            cases h
            exact Or.inr (interact_err hi)
        · simp at h
      · exact ih h
    · simp at h

theorem walk_nl_shape {bd : Board} :
    ∀ {n : Nat} {cur dir : Point} {vis v2 : List Point} {nl : List Laser},
      walk bd n cur dir vis = .ok (v2, nl) →
      ∀ l' ∈ nl,
        (∃ p blk, gridLookup bd.grid p = some blk ∧ l'.origin = blk.pos) ∧
        (l'.direction = dir ∨ l'.direction = ⟨dir.x, -dir.y⟩ ∨
          l'.direction = ⟨-dir.x, dir.y⟩) := by
  intro n
  induction n with
  | zero => intro cur dir vis v2 nl h; simp [walk] at h
  | succ m ih =>
    intro cur dir vis v2 nl h
    rw [walk] at h
    split at h
    · next hv =>
        split at h
        · next blk hg =>
            split at h
            · simp at h
            · next nl' hi =>
                cases h
                intro l' hl'
                have hs := interact_shape hi l' hl'
                exact ⟨⟨cur + dir, blk, hg, hs.1⟩, hs.2⟩
        · exact ih h
    · cases h
      intro l' hl'
      simp at hl'

theorem walk_nl_len {bd : Board} :
    ∀ {n : Nat} {cur dir : Point} {vis v2 : List Point} {nl : List Laser},
      walk bd n cur dir vis = .ok (v2, nl) → nl.length ≤ 2 := by
  intro n
  induction n with
  | zero => intro cur dir vis v2 nl h; simp [walk] at h
  | succ m ih =>
    intro cur dir vis v2 nl h
    rw [walk] at h
    split at h
    · split at h
      · split at h
        · simp at h
        · next nl' hi =>
            cases h
            exact interact_len hi
      · exact ih h
    · cases h
      simp

theorem walk_suff_xpos {bd : Board} {dir : Point} (hd : 0 < dir.x) :
    ∀ {n : Nat} {cur : Point} {vis : List Point},
      (bd.width - cur.x).toNat < n → walk bd n cur dir vis ≠ .error .fuelOut := by
  intro n
  induction n with
  | zero => intro cur vis hn; omega
  | succ m ih =>
    intro cur vis hn h
    rw [walk] at h
    split at h
    · next hv =>
        split at h
        · split at h
          · next e' hi =>
              cases h
              have h3 := interact_err hi
              cases h3
          · simp at h
        · have hvv := (isValid_iff bd _).mp hv
          have hx : (cur + dir).x = cur.x + dir.x := rfl
          exact ih (by omega) h
    · simp at h

theorem walk_suff_xneg {bd : Board} {dir : Point} (hd : dir.x < 0) :
    ∀ {n : Nat} {cur : Point} {vis : List Point},
      (cur.x + 1).toNat < n → walk bd n cur dir vis ≠ .error .fuelOut := by
  intro n
  induction n with
  | zero => intro cur vis hn; omega
  | succ m ih =>
    intro cur vis hn h
    rw [walk] at h
    split at h
    · next hv =>
        split at h
        · split at h
          · next e' hi =>
              cases h
              have h3 := interact_err hi
              cases h3
          · simp at h
        · have hvv := (isValid_iff bd _).mp hv
          have hx : (cur + dir).x = cur.x + dir.x := rfl
          exact ih (by omega) h
    · simp at h

theorem walk_suff_ypos {bd : Board} {dir : Point} (hd : 0 < dir.y) :
    ∀ {n : Nat} {cur : Point} {vis : List Point},
      (bd.height - cur.y).toNat < n → walk bd n cur dir vis ≠ .error .fuelOut := by
  intro n
  induction n with
  | zero => intro cur vis hn; omega
  | succ m ih =>
    intro cur vis hn h
    rw [walk] at h
    split at h
    · next hv =>
        split at h
        · split at h
          · next e' hi =>
              cases h
              have h3 := interact_err hi
              cases h3
          · simp at h
        · have hvv := (isValid_iff bd _).mp hv
          have hy : (cur + dir).y = cur.y + dir.y := rfl
          exact ih (by omega) h
    · simp at h

theorem walk_suff_yneg {bd : Board} {dir : Point} (hd : dir.y < 0) :
    ∀ {n : Nat} {cur : Point} {vis : List Point},
      (cur.y + 1).toNat < n → walk bd n cur dir vis ≠ .error .fuelOut := by
  intro n
  induction n with
  | zero => intro cur vis hn; omega
  | succ m ih =>
    intro cur vis hn h
    rw [walk] at h
    split at h
    · next hv =>
        split at h
        · split at h
          · next e' hi =>
              cases h
              have h3 := interact_err hi
              cases h3
          · simp at h
        · have hvv := (isValid_iff bd _).mp hv
          have hy : (cur + dir).y = cur.y + dir.y := rfl
          exact ih (by omega) h
    · simp at h

theorem walk_suff {bd : Board} {cur dir : Point} {vis : List Point}
    (hd : dir ≠ ⟨0, 0⟩) :
    walk bd (walkFuel bd cur) cur dir vis ≠ .error .fuelOut := by
  have hcases : dir.x ≠ 0 ∨ dir.y ≠ 0 := by
    by_contra hc
    push_neg at hc
    exact hd (by cases dir; simp_all)
  unfold walkFuel
  rcases hcases with hx | hy
  · rcases lt_or_gt_of_ne hx with hneg | hpos
    · exact walk_suff_xneg hneg (by omega)
    · exact walk_suff_xpos hpos (by omega)
  · rcases lt_or_gt_of_ne hy with hneg | hpos
    · exact walk_suff_yneg hneg (by omega)
    · exact walk_suff_ypos hpos (by omega)

/-! ## Lemmas about the signature universe -/

theorem dirQuads_self {ls : List Laser} {l : Laser} (h : l ∈ ls) :
    l.direction ∈ dirQuads ls := by
  induction ls with
  | nil => simp at h
  | cons a rest ih =>
    rcases List.mem_cons.mp h with rfl | h'
    · simp [dirQuads]
    · simp only [dirQuads, List.mem_cons]
      exact Or.inr (Or.inr (Or.inr (Or.inr (ih h'))))

theorem dirQuads_flipY {ls : List Laser} {d : Point} (h : d ∈ dirQuads ls) :
    (⟨d.x, -d.y⟩ : Point) ∈ dirQuads ls := by
  induction ls with
  | nil => simp [dirQuads] at h
  | cons a rest ih =>
    obtain ⟨ao, adx, ady⟩ := a
    obtain ⟨dx, dy⟩ := d
    simp only [dirQuads, List.mem_cons] at h ⊢
    rcases h with h | h | h | h | h
    · rw [Point.mk.injEq] at h
      obtain ⟨rfl, rfl⟩ := h
      simp
    · rw [Point.mk.injEq] at h
      obtain ⟨rfl, rfl⟩ := h
      simp
    · rw [Point.mk.injEq] at h
      obtain ⟨rfl, rfl⟩ := h
      simp
    · rw [Point.mk.injEq] at h
      obtain ⟨rfl, rfl⟩ := h
      simp
    · exact Or.inr (Or.inr (Or.inr (Or.inr (ih h))))

theorem dirQuads_flipX {ls : List Laser} {d : Point} (h : d ∈ dirQuads ls) :
    (⟨-d.x, d.y⟩ : Point) ∈ dirQuads ls := by
  induction ls with
  | nil => simp [dirQuads] at h
  | cons a rest ih =>
    obtain ⟨ao, adx, ady⟩ := a
    obtain ⟨dx, dy⟩ := d
    simp only [dirQuads, List.mem_cons] at h ⊢
    rcases h with h | h | h | h | h
    · rw [Point.mk.injEq] at h
      obtain ⟨rfl, rfl⟩ := h
      simp
    · rw [Point.mk.injEq] at h
      obtain ⟨rfl, rfl⟩ := h
      simp
    · rw [Point.mk.injEq] at h
      obtain ⟨rfl, rfl⟩ := h
      simp
    · rw [Point.mk.injEq] at h
      obtain ⟨rfl, rfl⟩ := h
      simp
    · exact Or.inr (Or.inr (Or.inr (Or.inr (ih h))))

theorem dirQuads_nonzero {ls : List Laser}
    (hz : ∀ l ∈ ls, l.direction ≠ ⟨0, 0⟩) {d : Point}
    (h : d ∈ dirQuads ls) : d ≠ ⟨0, 0⟩ := by
  induction ls with
  | nil => simp [dirQuads] at h
  | cons a rest ih =>
    have ha : a.direction ≠ ⟨0, 0⟩ := hz a (List.mem_cons_self a rest)
    obtain ⟨ao, adx, ady⟩ := a
    simp only at ha
    simp only [dirQuads, List.mem_cons] at h
    simp only [ne_eq, Point.mk.injEq] at ha
    rcases h with rfl | rfl | rfl | rfl | h
    · intro hc
      rw [Point.mk.injEq] at hc
      omega
    · intro hc
      rw [Point.mk.injEq] at hc
      omega
    · intro hc
      rw [Point.mk.injEq] at hc
      omega
    · intro hc
      rw [Point.mk.injEq] at hc
      omega
    · exact ih (fun l hl => hz l (List.mem_cons_of_mem _ hl)) h

theorem gridSigs_mem {g : List (Point × Block)} {ds : List Point}
    {p : Point} {blk : Block} {d : Point}
    (hg : (p, blk) ∈ g) (hd : d ∈ ds) : (blk.pos, d) ∈ gridSigs g ds := by
  induction g with
  | nil => simp at hg
  | cons e rest ih =>
    rw [gridSigs]
    rcases List.mem_cons.mp hg with rfl | h'
    · exact List.mem_append_left _ (List.mem_map_of_mem _ hd)
    · exact List.mem_append_right _ (ih h')

theorem laser_sig_mem {bd : Board} {l : Laser} (h : l ∈ bd.lasers) :
    (l.origin, l.direction) ∈ allSigs bd :=
  List.mem_append_left _ (List.mem_map_of_mem _ h)

theorem block_sig_mem {bd : Board} {p : Point} {blk : Block} {d : Point}
    (hg : gridLookup bd.grid p = some blk) (hd : d ∈ dirQuads bd.lasers) :
    (blk.pos, d) ∈ allSigs bd :=
  List.mem_append_right _ (gridSigs_mem (gridLookup_mem hg) hd)

/-! ## The termination measure -/

theorem remCount_nil_seen (L : List (Point × Point)) : remCount L [] = L.length := by
  unfold remCount
  induction L with
  | nil => rfl
  | cons a rest ih => simp [List.filter, ih]

theorem remCount_cons_le (L : List (Point × Point)) (s : Point × Point)
    (seen : List (Point × Point)) : remCount L (s :: seen) ≤ remCount L seen := by
  unfold remCount
  refine List.Sublist.length_le (List.monotone_filter_right L ?_)
  intro a ha
  simp only [decide_eq_true_eq] at ha ⊢
  exact fun hc => ha (List.mem_cons_of_mem s hc)

theorem remCount_cons_lt {L : List (Point × Point)} {s : Point × Point}
    {seen : List (Point × Point)} (hs : s ∈ L) (hns : s ∉ seen) :
    remCount L (s :: seen) < remCount L seen := by
  induction L with
  | nil => simp at hs
  | cons a rest ih =>
    have hle := remCount_cons_le rest s seen
    unfold remCount at hle ⊢
    rcases List.mem_cons.mp hs with rfl | h'
    · have h1 : (decide (¬ s ∈ (s :: seen))) = false := by simp
      have h2 : (decide (¬ s ∈ seen)) = true := by simp [hns]
      simp only [List.filter_cons, h1, h2, Bool.false_eq_true, if_false, if_true,
        List.length_cons]
      omega
    · by_cases ha2 : a ∈ seen
      · have h1 : (decide (¬ a ∈ (s :: seen))) = false := by
          simp [List.mem_cons, ha2]
        have h2 : (decide (¬ a ∈ seen)) = false := by simp [ha2]
        simp only [List.filter_cons, h1, h2, Bool.false_eq_true, if_false]
        have := ih h'
        unfold remCount at this
        exact this
      · by_cases has : a = s
        · subst has
          have h1 : (decide (¬ a ∈ (a :: seen))) = false := by simp
          have h2 : (decide (¬ a ∈ seen)) = true := by simp [ha2]
          simp only [List.filter_cons, h1, h2, Bool.false_eq_true, if_false, if_true,
            List.length_cons]
          omega
        · have h1 : (decide (¬ a ∈ (s :: seen))) = true := by
            simp [List.mem_cons, ha2, has]
          have h2 : (decide (¬ a ∈ seen)) = true := by simp [ha2]
          simp only [List.filter_cons, h1, h2, if_true, List.length_cons]
          have := ih h'
          unfold remCount at this
          omega

/-! ## Lemmas about the work-list loop -/

theorem simLoop_mono_mem {bd : Board} {q : Point} :
    ∀ {n : Nat} {act : List Laser} {seen : List (Point × Point)}
      {vis out : List Point},
      q ∈ vis → simLoop bd n act seen vis = .ok out → q ∈ out := by
  intro n
  induction n with
  | zero =>
    intro act seen vis out hq h
    cases act with
    | nil => rw [simLoop] at h; cases h; exact hq
    | cons l rest => rw [simLoop] at h; simp at h
  | succ m ih =>
    intro act seen vis out hq h
    cases act with
    | nil => rw [simLoop] at h; cases h; exact hq
    | cons l rest =>
      rw [simLoop] at h
      split at h
      · exact ih hq h
      · split at h
        · simp at h
        · next vis2 nl hw =>
            exact ih (walk_mono_mem hq hw) h

theorem simLoop_err_kind {bd : Board} :
    ∀ {n : Nat} {act : List Laser} {seen : List (Point × Point)}
      {vis : List Point} {e : LzError},
      simLoop bd n act seen vis = .error e →
      e = .fuelOut ∨ e = .invalidGeometry := by
  intro n
  induction n with
  | zero =>
    intro act seen vis e h
    cases act with
    | nil => rw [simLoop] at h; simp at h
    | cons l rest =>
      rw [simLoop] at h
      cases h
      exact Or.inl rfl
  | succ m ih =>
    intro act seen vis e h
    cases act with
    | nil => rw [simLoop] at h; simp at h
    | cons l rest =>
      rw [simLoop] at h
      split at h
      · exact ih h
      · split at h
        · next e' hw =>
            cases h
            exact walk_err_kind hw
        · exact ih h

theorem simLoop_suff {bd : Board} (hz : ∀ l ∈ bd.lasers, l.direction ≠ ⟨0, 0⟩) :
    ∀ {fuel : Nat} {act : List Laser} {seen : List (Point × Point)}
      {vis : List Point},
      (∀ l ∈ act,
        (l.origin, l.direction) ∈ allSigs bd ∧ l.direction ∈ dirQuads bd.lasers) →
      3 * remCount (allSigs bd) seen + act.length < fuel →
      simLoop bd fuel act seen vis ≠ .error .fuelOut := by
  intro fuel
  induction fuel with
  | zero => intro act seen vis _ hm; omega
  | succ m ih =>
    intro act seen vis hInv hm h
    cases act with
    | nil => rw [simLoop] at h; simp at h
    | cons l rest =>
      rw [simLoop] at h
      split at h
      · refine ih (fun x hx => hInv x (List.mem_cons_of_mem l hx)) ?_ h
        simp only [List.length_cons] at hm
        omega
      · next hseen =>
          split at h
          · next e hw =>
              cases h
              have hd : l.direction ∈ dirQuads bd.lasers :=
                (hInv l (List.mem_cons_self _ _)).2
              exact walk_suff (dirQuads_nonzero hz hd) hw
          · next vis2 nl hw =>
              have hsig := (hInv l (List.mem_cons_self _ _)).1
              have hld : l.direction ∈ dirQuads bd.lasers :=
                (hInv l (List.mem_cons_self _ _)).2
              have hlen := walk_nl_len hw
              have hlt := remCount_cons_lt hsig hseen
              refine ih ?_ ?_ h
              · intro x hx
                rcases List.mem_append.mp hx with hx1 | hx2
                · have hshape := walk_nl_shape hw x (List.mem_reverse.mp hx1)
                  obtain ⟨⟨p, blk, hgl, hxo⟩, hdir⟩ := hshape
                  have hxd : x.direction ∈ dirQuads bd.lasers := by
                    rcases hdir with h1 | h1 | h1
                    · rw [h1]; exact hld
                    · rw [h1]; exact dirQuads_flipY hld
                    · rw [h1]; exact dirQuads_flipX hld
                  refine ⟨?_, hxd⟩
                  rw [hxo]
                  exact block_sig_mem hgl hxd
                · exact hInv x (List.mem_cons_of_mem l hx2)
              · have hlen2 : (nl.reverse ++ rest).length = nl.length + rest.length := by
                  simp
                rw [hlen2]
                simp only [List.length_cons] at hm
                omega

theorem walk_zero_dir_diverges :
    ∀ (n : Nat) (v : List Point),
      walk bdZeroDir n ⟨1, 1⟩ ⟨0, 0⟩ v = .error .fuelOut := by
  intro n
  induction n with
  | zero => intro v; rfl
  | succ m ih =>
    intro v
    have hstep : walk bdZeroDir (m + 1) ⟨1, 1⟩ ⟨0, 0⟩ v =
        walk bdZeroDir m ⟨1, 1⟩ ⟨0, 0⟩ (insertPt ⟨1, 1⟩ v) := rfl
    rw [hstep]
    exact ih _

/-- Claim C3, counterexample.  Claim: for every board with finite bounds,
finitely many blocks and finitely many laser sources, `simulate_lasers`
terminates.  Refuted at the concrete board `bdZeroDir` (bounds 4 by 4, no
blocks, one source), whose single laser has the direction (0, 0) that
`add_laser` produces from the inputs `dx = dy = 0`: the beam-stepping
loop revisits the in-bounds point (1, 1) forever, exhausting every fuel
supply, and `simulate_lasers` accordingly ends in the fuel-out marker
instead of a result. -/
theorem C3_sim_diverges_counterexample :
    walkDiverges bdZeroDir ⟨1, 1⟩ ⟨0, 0⟩ ∧
      simulate_lasers bdZeroDir = .error .fuelOut :=
  ⟨walk_zero_dir_diverges, rfl⟩

/-- Claim C3, amended.  For every board all of whose laser sources have a
direction other than (0, 0), `simulate_lasers` terminates — even when
reflect/refract blocks form a cycle that re-creates previously seen
beams — because beams whose (origin, direction) signature has already
been expanded are not expanded again: the run never ends in the fuel-out
marker, i.e. both `while` loops finish within the proven fuel bounds. -/
theorem C3_sim_terminates (bd : Board)
    (hz : ∀ l ∈ bd.lasers, l.direction ≠ ⟨0, 0⟩) :
    simulate_lasers bd ≠ .error .fuelOut := by
  unfold simulate_lasers outerFuel
  apply simLoop_suff hz
  · intro l hl
    have hl' := List.mem_reverse.mp hl
    exact ⟨laser_sig_mem hl', dirQuads_self hl'⟩
  · rw [remCount_nil_seen]
    simp only [List.length_reverse]
    omega

/-- Claim C3, witness: the cyclic two-refractor board `bdCyc` satisfies
the nonzero-direction hypothesis and its simulation terminates. -/
theorem C3_sim_terminates_witness :
    (∀ l ∈ bdCyc.lasers, l.direction ≠ (⟨0, 0⟩ : Point)) ∧
      simulate_lasers bdCyc ≠ .error .fuelOut :=
  ⟨by decide, C3_sim_terminates bdCyc (by decide)⟩

/-! ## Claims about the element interactions -/

/-- Claim C1.  For every reflect block and every incoming laser,
`ReflectBlock.interact` returns exactly one laser positioned at the
block's position, with the direction's y component negated (x unchanged)
when the laser's origin shares the block's x coordinate but differs in
y, and the x component negated (y unchanged) when the origin shares the
block's y coordinate but differs in x; when neither case holds (origin
differing on both axes, or coinciding with the block position), interact
raises an error instead of returning a result. -/
theorem C1_reflect_interact (pos : Point) (fx : Bool) (l : Laser) :
    (l.origin.x = pos.x → l.origin.y ≠ pos.y →
      interact ⟨.reflect, pos, fx⟩ l =
        .ok [⟨pos, ⟨l.direction.x, -l.direction.y⟩⟩]) ∧
    (l.origin.y = pos.y → l.origin.x ≠ pos.x →
      interact ⟨.reflect, pos, fx⟩ l =
        .ok [⟨pos, ⟨-l.direction.x, l.direction.y⟩⟩]) ∧
    (¬ (l.origin.x = pos.x ∧ l.origin.y ≠ pos.y) →
      ¬ (l.origin.y = pos.y ∧ l.origin.x ≠ pos.x) →
      interact ⟨.reflect, pos, fx⟩ l = .error .invalidGeometry) := by
  refine ⟨fun h1 h2 => ?_, fun h1 h2 => ?_, fun h1 h2 => ?_⟩ <;>
    simp only [interact]
  · rw [if_pos ⟨h1, h2⟩]
  · rw [if_neg (fun hc => h2 hc.1), if_pos ⟨h1, h2⟩]
  · rw [if_neg h1, if_neg h2]

/-- Claim C1, witness: the spec's example — a reflect block at (2, 2)
and a beam whose origin (2, 0) shares the x coordinate, with direction
(1, -1) — yields exactly one beam with direction (1, 1). -/
theorem C1_reflect_interact_witness :
    interact ⟨.reflect, ⟨2, 2⟩, true⟩ ⟨⟨2, 0⟩, ⟨1, -1⟩⟩ =
      .ok [⟨⟨2, 2⟩, ⟨1, 1⟩⟩] :=
  (C1_reflect_interact ⟨2, 2⟩ true ⟨⟨2, 0⟩, ⟨1, -1⟩⟩).1 rfl (by decide)

/-- Claim C5.  For every refract block and every incoming laser whose
origin is adjacent to the block on exactly one axis,
`RefractBlock.interact` returns exactly two lasers at the block's
position: first the transmitted laser with the direction unchanged, then
the reflected laser with the entry-side flip applied (y negated if the
origin shares the block's x coordinate, x negated if it shares the y
coordinate); if the origin matches on neither axis or on both, interact
raises an error. -/
theorem C5_refract_interact (pos : Point) (fx : Bool) (l : Laser) :
    (l.origin.x = pos.x → l.origin.y ≠ pos.y →
      interact ⟨.refract, pos, fx⟩ l =
        .ok [⟨pos, l.direction⟩, ⟨pos, ⟨l.direction.x, -l.direction.y⟩⟩]) ∧
    (l.origin.y = pos.y → l.origin.x ≠ pos.x →
      interact ⟨.refract, pos, fx⟩ l =
        .ok [⟨pos, l.direction⟩, ⟨pos, ⟨-l.direction.x, l.direction.y⟩⟩]) ∧
    (¬ (l.origin.x = pos.x ∧ l.origin.y ≠ pos.y) →
      ¬ (l.origin.y = pos.y ∧ l.origin.x ≠ pos.x) →
      interact ⟨.refract, pos, fx⟩ l = .error .invalidGeometry) := by
  refine ⟨fun h1 h2 => ?_, fun h1 h2 => ?_, fun h1 h2 => ?_⟩ <;>
    simp only [interact]
  · rw [if_pos ⟨h1, h2⟩]
  · rw [if_neg (fun hc => h2 hc.1), if_pos ⟨h1, h2⟩]
  · rw [if_neg h1, if_neg h2]

/-- Claim C5, witness: the spec's example — a refract block at (2, 2)
and a beam from origin (2, 0) with direction (1, -1) — yields the
transmitted beam (1, -1) followed by the reflected beam (1, 1). -/
theorem C5_refract_interact_witness :
    interact ⟨.refract, ⟨2, 2⟩, true⟩ ⟨⟨2, 0⟩, ⟨1, -1⟩⟩ =
      .ok [⟨⟨2, 2⟩, ⟨1, -1⟩⟩, ⟨⟨2, 2⟩, ⟨1, 1⟩⟩] :=
  (C5_refract_interact ⟨2, 2⟩ true ⟨⟨2, 0⟩, ⟨1, -1⟩⟩).1 rfl (by decide)

/-! ## Claims about the simulator -/

/-- Claim C8.  Calling `simulate_lasers` twice with no mutation of the
board in between returns two equal sets of points.  The Python method
only reads the board: it deep-copies the source lasers into its work
list and never assigns to any board attribute, which the embedding
reflects by making `simulate_lasers` a pure function of the board value;
two calls on the same board are therefore literally the same value. -/
theorem C8_sim_idempotent (bd : Board) :
    simulate_lasers bd = simulate_lasers bd := rfl

/-- The conditional expression of `add_laser` is the integer sign. -/
theorem norm_if_eq_sign (d : Int) :
    (if d > 0 then (1 : Int) else if d < 0 then -1 else 0) = d.sign := by
  rcases lt_trichotomy d 0 with h | rfl | h
  · rw [if_neg (by omega), if_pos h, Int.sign_eq_neg_one_of_neg h]
  · simp
  · rw [if_pos h, Int.sign_eq_one_of_pos h]

/-- Claim C9.  For all integer inputs dx and dy, `Board.add_laser`
appends one laser at (x, y) whose stored direction is the component-wise
sign of (dx, dy): 1 for positive input, -1 for negative input, 0 for
zero input — so axis-aligned beams with a zero component are permitted
and preserved.  Nothing else on the board changes. -/
theorem C9_add_laser_sign (bd : Board) (x y dx dy : Int) :
    add_laser bd x y dx dy =
      { bd with lasers := bd.lasers ++ [⟨⟨x, y⟩, ⟨dx.sign, dy.sign⟩⟩] } := by
  unfold add_laser
  rw [norm_if_eq_sign, norm_if_eq_sign]

/-- Claim C2.  Each step of `simulate_lasers` behaves as follows:
(1) advancing a beam one lattice unit to a position outside the board
bounds terminates that beam without recording the position and without
producing new lasers; (2) an in-bounds position is always added to the
set returned by the walk (including positions holding blocks); (3) when
the position holds a block, `interact` is invoked with the beam's
pre-step position as the laser origin and the walk stops, its result
being exactly the interaction's outcome paired with the updated visited
set; (4) at the work-list level every laser returned by the walk is
appended to the work list (`extend` on the Python stack, i.e. reversed
onto the head-pop representation) together with the updated visited set;
(5) the visited set only grows across the remaining loop, so every
recorded point is in the returned illuminated set. -/
theorem C2_sim_step (bd : Board) (fuel : Nat) (cur dir : Point) (vis : List Point) :
    (isValid bd (cur + dir) = false →
      walk bd (fuel + 1) cur dir vis = .ok (vis, [])) ∧
    (∀ v2 nl, isValid bd (cur + dir) = true →
      walk bd (fuel + 1) cur dir vis = .ok (v2, nl) → (cur + dir) ∈ v2) ∧
    (∀ blk, isValid bd (cur + dir) = true →
      gridLookup bd.grid (cur + dir) = some blk →
      walk bd (fuel + 1) cur dir vis =
        match interact blk ⟨cur, dir⟩ with
        | .error e => .error e
        | .ok nl => .ok (insertPt (cur + dir) vis, nl)) ∧
    (∀ l rest seen vis2 nl, (l.origin, l.direction) ∉ seen →
      walk bd (walkFuel bd l.origin) l.origin l.direction vis = .ok (vis2, nl) →
      simLoop bd (fuel + 1) (l :: rest) seen vis =
        simLoop bd fuel (nl.reverse ++ rest) ((l.origin, l.direction) :: seen) vis2) ∧
    (∀ q act seen out, q ∈ vis → simLoop bd fuel act seen vis = .ok out →
      q ∈ out) := by
  refine ⟨?_, ?_, ?_, ?_, ?_⟩
  · intro hv
    rw [walk]
    simp [hv]
  · intro v2 nl hv h
    rw [walk] at h
    rw [if_pos hv] at h
    split at h
    · split at h
      · simp at h
      · cases h
        exact mem_insertPt_self _ _
    · exact walk_mono_mem (mem_insertPt_self _ _) h
  · intro blk hv hg
    rw [walk, if_pos hv, hg]
  · intro l rest seen vis2 nl hns hw
    rw [simLoop, if_neg hns, hw]
  · intro q act seen out hq h
    exact simLoop_mono_mem hq h

/-- Claim C2, witness: on the one-row board `bdAbsorbStep`, stepping
from the origin onto the absorb block at (1, 0) records the block's
position and returns the interaction's outcome (no outgoing lasers). -/
theorem C2_sim_step_witness :
    isValid bdAbsorbStep ⟨1, 0⟩ = true ∧
      gridLookup bdAbsorbStep.grid ⟨1, 0⟩ = some ⟨.absorb, ⟨1, 0⟩, true⟩ ∧
      walk bdAbsorbStep 1 ⟨0, 0⟩ ⟨1, 0⟩ [] = .ok ([⟨1, 0⟩], []) := by
  refine ⟨rfl, rfl, ?_⟩
  have h := (C2_sim_step bdAbsorbStep 0 ⟨0, 0⟩ ⟨1, 0⟩ []).2.2.1
    ⟨.absorb, ⟨1, 0⟩, true⟩ rfl rfl
  exact h

/-! ## Lemmas about the placement search -/

theorem add_block_ok {bd : Board} {blk : Block} {bd1 : Board}
    (h : add_block bd blk = .ok bd1) :
    bd1 = { bd with grid := (blk.pos, blk) :: bd.grid } := by
  unfold add_block at h
  split at h
  · simp at h
  · cases h
    rfl

theorem add_block_err {bd : Board} {blk : Block} {e : LzError}
    (h : add_block bd blk = .error e) :
    e = .occupied ∧ (gridLookup bd.grid blk.pos).isSome = true := by
  unfold add_block at h
  split at h
  · cases h
    exact ⟨rfl, by assumption⟩
  · simp at h

theorem gridErase_head (p : Point) (b : Block) (g : List (Point × Block)) :
    gridErase ((p, b) :: g) p = g := by
  rw [gridErase]
  simp

theorem dropLast_append_single (s : List Block) (b : Block) :
    (s ++ [b]).dropLast = s :=
  List.dropLast_concat

theorem tryPlaceLoop_restore
    {recurse : Board → List Block → Except LzError (Bool × Board × List Block)}
    (Hrec : ∀ b s b2 s2, recurse b s = .ok (false, b2, s2) → b2 = b ∧ s2 = s)
    (t : BlockKind) :
    ∀ (positions : List Point) (bd : Board) (sol : List Block)
      (b2 : Board) (s2 : List Block),
      tryPlaceLoop recurse t positions bd sol = .ok (false, b2, s2) →
      b2 = bd ∧ s2 = sol := by
  intro positions
  induction positions with
  | nil =>
    intro bd sol b2 s2 h
    rw [tryPlaceLoop] at h
    cases h
    exact ⟨rfl, rfl⟩
  | cons pos ps ih =>
    intro bd sol b2 s2 h
    rw [tryPlaceLoop] at h
    split at h
    · exact ih bd sol b2 s2 h
    · split at h
      · simp at h
      · next bd1 hab =>
          split at h
          · simp at h
          · simp at h
          · next bd2 sol2 hrec =>
              obtain ⟨rfl, rfl⟩ := Hrec _ _ _ _ hrec
              have hb1 := add_block_ok hab
              rw [hb1] at h
              simp only [mkBlock, gridErase_head, dropLast_append_single] at h
              exact ih bd sol b2 s2 h

theorem tryPlace_restore :
    ∀ (blocks : List BlockKind) (bd : Board) (sol : List Block)
      (b2 : Board) (s2 : List Block),
      tryPlace blocks bd sol = .ok (false, b2, s2) → b2 = bd ∧ s2 = sol := by
  intro blocks
  induction blocks with
  | nil =>
    intro bd sol b2 s2 h
    rw [tryPlace] at h
    split at h
    · simp at h
    · cases h
      exact ⟨rfl, rfl⟩
  | cons t rest ih =>
    intro bd sol b2 s2 h
    rw [tryPlace] at h
    exact tryPlaceLoop_restore ih t bd.empty_positions bd sol b2 s2 h

theorem tryPlaceLoop_success
    {recurse : Board → List Block → Except LzError (Bool × Board × List Block)}
    (HrecR : ∀ b s b2 s2, recurse b s = .ok (false, b2, s2) → b2 = b ∧ s2 = s)
    (HrecS : ∀ b s b2 s2, recurse b s = .ok (true, b2, s2) →
      ∃ placed, s2 = s ++ placed ∧
        b2 = { b with grid := (placed.map fun x => (x.pos, x)).reverse ++ b.grid })
    (t : BlockKind) :
    ∀ (positions : List Point) (bd : Board) (sol : List Block)
      (b2 : Board) (s2 : List Block),
      tryPlaceLoop recurse t positions bd sol = .ok (true, b2, s2) →
      ∃ placed, s2 = sol ++ placed ∧
        b2 = { bd with grid := (placed.map fun x => (x.pos, x)).reverse ++ bd.grid } := by
  intro positions
  induction positions with
  | nil =>
    intro bd sol b2 s2 h
    rw [tryPlaceLoop] at h
    simp at h
  | cons pos ps ih =>
    intro bd sol b2 s2 h
    rw [tryPlaceLoop] at h
    split at h
    · exact ih bd sol b2 s2 h
    · split at h
      · simp at h
      · next bd1 hab =>
          split at h
          · simp at h
          · next bd2 sol2 hrec =>
              cases h
              obtain ⟨placed', hs, hb⟩ := HrecS _ _ _ _ hrec
              have hb1 := add_block_ok hab
              refine ⟨mkBlock t pos :: placed', ?_, ?_⟩
              · rw [hs]
                simp
              · rw [hb, hb1]
                simp [mkBlock]
          · next bd2 sol2 hrec =>
              obtain ⟨rfl, rfl⟩ := HrecR _ _ _ _ hrec
              have hb1 := add_block_ok hab
              rw [hb1] at h
              simp only [mkBlock, gridErase_head, dropLast_append_single] at h
              exact ih bd sol b2 s2 h

theorem tryPlace_success :
    ∀ (blocks : List BlockKind) (bd : Board) (sol : List Block)
      (b2 : Board) (s2 : List Block),
      tryPlace blocks bd sol = .ok (true, b2, s2) →
      ∃ placed, s2 = sol ++ placed ∧
        b2 = { bd with grid := (placed.map fun x => (x.pos, x)).reverse ++ bd.grid } := by
  intro blocks
  induction blocks with
  | nil =>
    intro bd sol b2 s2 h
    rw [tryPlace] at h
    split at h
    · simp at h
    · cases h
      exact ⟨[], by simp, by simp⟩
  | cons t rest ih =>
    intro bd sol b2 s2 h
    rw [tryPlace] at h
    exact tryPlaceLoop_success (tryPlace_restore rest) ih t
      bd.empty_positions bd sol b2 s2 h

theorem is_solved_no_occ (bd : Board) : is_solved bd ≠ .error .occupied := by
  intro h
  unfold is_solved at h
  split at h
  · next e hsim =>
      cases h
      unfold simulate_lasers at hsim
      rcases simLoop_err_kind hsim with h1 | h1 <;> cases h1
  · cases h

theorem tryPlaceLoop_no_occ
    {recurse : Board → List Block → Except LzError (Bool × Board × List Block)}
    (Hrec : ∀ b s, recurse b s ≠ .error .occupied) (t : BlockKind) :
    ∀ (positions : List Point) (bd : Board) (sol : List Block),
      tryPlaceLoop recurse t positions bd sol ≠ .error .occupied := by
  intro positions
  induction positions with
  | nil =>
    intro bd sol h
    rw [tryPlaceLoop] at h
    cases h
  | cons pos ps ih =>
    intro bd sol h
    rw [tryPlaceLoop] at h
    split at h
    · exact ih bd sol h
    · next hocc =>
        split at h
        · next e hab =>
            cases h
            have := (add_block_err hab).2
            simp [mkBlock] at this
            exact hocc this
        · next bd1 hab =>
            split at h
            · next e hrec =>
                cases h
                exact Hrec _ _ hrec
            · cases h
            · exact ih _ _ h

theorem tryPlace_no_occ :
    ∀ (blocks : List BlockKind) (bd : Board) (sol : List Block),
      tryPlace blocks bd sol ≠ .error .occupied := by
  intro blocks
  induction blocks with
  | nil =>
    intro bd sol h
    rw [tryPlace] at h
    split at h
    · next e hsolv =>
        cases h
        exact is_solved_no_occ bd hsolv
    · cases h
  | cons t rest ih =>
    intro bd sol h
    rw [tryPlace] at h
    exact tryPlaceLoop_no_occ ih t bd.empty_positions bd sol h

/-! ## Claims about the placement search -/

/-- Claim C6.  The search mutates the board only by paired place/remove
operations: if `solver` returns None, the final board's grid is exactly
what it was before the call, and if `solver` returns a placement, the
final grid equals the initial contents plus exactly the returned placed
blocks (each stored under its position, most recent first), the board
otherwise unchanged — the solved, fully-placed state for the caller. -/
theorem C6_solver_grid (bd : Board) :
    (∀ bd2, solver bd = .ok (none, bd2) → bd2 = bd) ∧
    (∀ sol bd2, solver bd = .ok (some sol, bd2) →
      bd2 = { bd with grid := (sol.map fun x => (x.pos, x)).reverse ++ bd.grid }) := by
  constructor
  · intro bd2 h
    unfold solver at h
    split at h
    · cases h
    · simp at h
    · next bd2' sol' htp =>
        cases h
        exact (tryPlace_restore (blocks_placable bd) bd [] bd2 sol' htp).1
  · intro sol bd2 h
    unfold solver at h
    split at h
    · cases h
    · next bd2' sol' htp =>
        cases h
        obtain ⟨placed, hs, hb⟩ :=
          tryPlace_success (blocks_placable bd) bd [] bd2 sol htp
        simp only [List.nil_append] at hs
        rw [hb, hs]
    · simp at h

/-- Claim C6, witness: on `bdPlaceOne` the search succeeds, returning
one placed block, and the final board is the initial board plus exactly
that block in its grid. -/
theorem C6_solver_grid_witness :
    solver bdPlaceOne =
      .ok (some [⟨.absorb, ⟨0, 0⟩, false⟩],
        { bdPlaceOne with grid := [(⟨0, 0⟩, ⟨.absorb, ⟨0, 0⟩, false⟩)] }) ∧
    { bdPlaceOne with grid := [(⟨0, 0⟩, ⟨.absorb, ⟨0, 0⟩, false⟩)] } =
      { bdPlaceOne with grid :=
        (([⟨.absorb, ⟨0, 0⟩, false⟩] : List Block).map fun x => (x.pos, x)).reverse
          ++ bdPlaceOne.grid } :=
  ⟨rfl, (C6_solver_grid bdPlaceOne).2 [⟨.absorb, ⟨0, 0⟩, false⟩] _ rfl⟩

/-- Claim C7.  During any run of `solver`, every call to
`Board.add_block` is made on a position not currently in the grid (the
search skips occupied positions and always vacates a position before
retrying), so the occupied-position error branch of `add_block` is
unreachable from the search: `solver` never raises the occupied error,
on any board. -/
theorem C7_solver_no_occupied (bd : Board) :
    solver bd ≠ .error .occupied := by
  intro h
  unfold solver at h
  split at h
  · next e htp =>
      cases h
      exact tryPlace_no_occ (blocks_placable bd) bd [] htp
  · cases h
  · cases h

/-- Claim C7, witness: concrete instance of the safety property. -/
theorem C7_solver_no_occupied_witness :
    solver bdSolvedEmpty ≠ .error .occupied :=
  C7_solver_no_occupied bdSolvedEmpty

/-- Claim C10.  When every available block count on the board is zero,
`solver` returns the empty list — a successful value distinct from None —
exactly when the board's targets are already covered by the illuminated
set, and None otherwise. -/
theorem C10_solver_zero_available (bd : Board) (ha : bd.availA = 0)
    (hb : bd.availB = 0) (hc : bd.availC = 0) :
    (is_solved bd = .ok true → solver bd = .ok (some [], bd)) ∧
    (is_solved bd = .ok false → solver bd = .ok (none, bd)) ∧
    (some ([] : List Block) ≠ (none : Option (List Block))) := by
  have hbl : blocks_placable bd = [] := by
    unfold blocks_placable
    rw [ha, hb, hc]
    rfl
  refine ⟨fun hs => ?_, fun hs => ?_, by simp⟩
  · unfold solver
    rw [hbl, tryPlace, hs]
  · unfold solver
    rw [hbl, tryPlace, hs]

/-- Claim C10, witness: `bdSolvedEmpty` has zero available blocks and an
already-covered (empty) target set; `solver` returns the empty list. -/
theorem C10_solver_zero_available_witness :
    is_solved bdSolvedEmpty = .ok true ∧
      solver bdSolvedEmpty = .ok (some [], bdSolvedEmpty) :=
  ⟨rfl, (C10_solver_zero_available bdSolvedEmpty rfl rfl rfl).1 rfl⟩

/-- Claim C4, counterexample.  Claim: the placement search checks a
wall-clock deadline at the top of each recursive call and, when the
deadline has elapsed, fails with a Timeout outcome reported distinctly
from the Unsolvable outcome of exhausting all placements.  In the code,
`solver` takes no deadline and `try_place` performs no time check at
all — visible in the embedding, whose `solver` is a function of the
board alone — and every unsuccessful search returns the one value None.
Concretely, `bdNoPos` (a block available but no empty position: the
placement loop is exhausted immediately) and `bdMiss` (a placement
exists but never covers the target, the kind of search a deadline is
meant to cut short) fail with the identical, undifferentiated result. -/
theorem C4_no_timeout_counterexample :
    solver bdNoPos = .ok (none, bdNoPos) ∧
      solver bdMiss = .ok (none, bdMiss) ∧
      (solver bdNoPos).map Prod.fst = (solver bdMiss).map Prod.fst :=
  ⟨rfl, rfl, rfl⟩

/-- Claim C4, amended.  The placement search performs no deadline check
and has no Timeout outcome: its result is a function of the board alone,
and a search that fails — here, by exhausting the placement loop over an
empty position list while blocks remain to place — reports the single
failure value None, the same value every failed search returns. -/
theorem C4_solver_single_failure (bd : Board)
    (hp : bd.empty_positions = []) (hb : blocks_placable bd ≠ []) :
    solver bd = .ok (none, bd) := by
  obtain ⟨t, rest, hbl⟩ : ∃ t rest, blocks_placable bd = t :: rest := by
    cases hbl' : blocks_placable bd with
    | nil => exact absurd hbl' hb
    | cons t rest => exact ⟨t, rest, rfl⟩
  have htp : tryPlace (blocks_placable bd) bd [] = .ok (false, bd, []) := by
    rw [hbl, tryPlace, hp, tryPlaceLoop]
  unfold solver
  rw [htp]

/-- Claim C4, witness: concrete exhausted search reporting None. -/
theorem C4_solver_single_failure_witness :
    bdNoPos.empty_positions = [] ∧ blocks_placable bdNoPos ≠ [] ∧
      solver bdNoPos = .ok (none, bdNoPos) :=
  ⟨rfl, by decide, C4_solver_single_failure bdNoPos rfl (by decide)⟩
